import Mathlib

set_option linter.unusedVariables false

/-! Shallow embedding of the grocery-prices shopping calculator
(`src/unnamed/part_000`, the shopping-calculator service) and of the TTL
cache (`src/src/utils/cacheService.js`).

JavaScript numbers are modelled as rationals extended with the two
infinities and NaN, so that division by zero and invalid parses behave as
in the source.  Strings are Lean strings; the code only manipulates ASCII.
External collaborators (the Spoonacular product lookup, the ingredient
price cache, the price service) are modelled as an environment record,
and `Date.now()` as an explicit integer parameter. -/

/-- A JavaScript number: a rational, one of the two infinities, or NaN. -/
inductive JSNum where
  | num (q : ℚ)
  | inf
  | negInf
  | nan
deriving DecidableEq

/-- JavaScript unary minus. -/
def jsNeg : JSNum → JSNum
  | .num q => .num (-q)
  | .inf => .negInf
  | .negInf => .inf
  | .nan => .nan

/-- JavaScript addition (IEEE rules for infinities and NaN). -/
def jsAdd : JSNum → JSNum → JSNum
  | .nan, _ => .nan
  | _, .nan => .nan
  | .num a, .num b => .num (a + b)
  | .num _, .inf => .inf
  | .num _, .negInf => .negInf
  | .inf, .num _ => .inf
  | .negInf, .num _ => .negInf
  | .inf, .inf => .inf
  | .negInf, .negInf => .negInf
  | .inf, .negInf => .nan
  | .negInf, .inf => .nan

/-- JavaScript subtraction. -/
def jsSub (a b : JSNum) : JSNum := jsAdd a (jsNeg b)

/-- JavaScript multiplication (IEEE rules: `Infinity * 0 = NaN`, signs). -/
def jsMul : JSNum → JSNum → JSNum
  | .nan, _ => .nan
  | _, .nan => .nan
  | .num a, .num b => .num (a * b)
  | .num a, .inf => if 0 < a then .inf else if a < 0 then .negInf else .nan
  | .num a, .negInf => if 0 < a then .negInf else if a < 0 then .inf else .nan
  | .inf, .num b => if 0 < b then .inf else if b < 0 then .negInf else .nan
  | .negInf, .num b => if 0 < b then .negInf else if b < 0 then .inf else .nan
  | .inf, .inf => .inf
  | .inf, .negInf => .negInf
  | .negInf, .inf => .negInf
  | .negInf, .negInf => .inf

/-- JavaScript division: `x / 0` is an infinity for `x ≠ 0`, `0 / 0 = NaN`.
The model has a single zero, so the sign of a zero divisor is positive. -/
def jsDiv : JSNum → JSNum → JSNum
  | .nan, _ => .nan
  | _, .nan => .nan
  | .num a, .num b =>
    if b ≠ 0 then .num (a / b)
    else if 0 < a then .inf else if a < 0 then .negInf else .nan
  | .num _, .inf => .num 0
  | .num _, .negInf => .num 0
  | .inf, .num b => if 0 ≤ b then .inf else .negInf
  | .negInf, .num b => if 0 ≤ b then .negInf else .inf
  | .inf, .inf => .nan
  | .inf, .negInf => .nan
  | .negInf, .inf => .nan
  | .negInf, .negInf => .nan

/-- `Math.min(1, x)`: NaN-propagating minimum with 1. -/
def jsMin1 : JSNum → JSNum
  | .nan => .nan
  | .inf => .num 1
  | .negInf => .negInf
  | .num q => .num (if q ≤ 1 then q else 1)

/-- JavaScript boolean coercion of a number (`0` and `NaN` are falsy). -/
def jsTruthy : JSNum → Bool
  | .num q => decide (q ≠ 0)
  | .nan => false
  | _ => true

/-- Whether `x >= 0` evaluates to true in JavaScript (false for NaN). -/
def nonnegB : JSNum → Bool
  | .num q => decide (0 ≤ q)
  | .inf => true
  | .negInf => false
  | .nan => false

/-- Whether a number is a rational in the closed interval `[0, 1]`. -/
def inUnitB : JSNum → Bool
  | .num q => decide (0 ≤ q ∧ q ≤ 1)
  | _ => false

/-! ### Characters and strings -/

/-- The whitespace characters matched by the regex class `\s` (ASCII part). -/
def isWs (c : Char) : Bool :=
  c = ' ' || c = '\t' || c = '\n' || c = '\r' || c = '\x0b' || c = '\x0c'

/-- A character matched by the regex class `[\d.]`. -/
def isDigitOrDot (c : Char) : Bool := c.isDigit || c = '.'

/-- ASCII lower-casing of one character, as `String.prototype.toLowerCase`
acts on the ASCII range used by the code. -/
def lowerChar (c : Char) : Char :=
  if 65 ≤ c.toNat ∧ c.toNat ≤ 90 then Char.ofNat (c.toNat + 32) else c

/-- `s.toLowerCase()`. -/
def jsToLower (s : String) : String := ⟨s.data.map lowerChar⟩

/-- `s.trim()`: strip whitespace from both ends. -/
def jsTrim (s : String) : String :=
  ⟨((s.data.dropWhile isWs).reverse.dropWhile isWs).reverse⟩

/-- Is `nd` a leading piece of `hay`? -/
def listHasPref : List Char → List Char → Bool
  | [], _ => true
  | _ :: _, [] => false
  | a :: as, b :: bs => a = b && listHasPref as bs

/-- Does `hay` contain `nd` as a contiguous run? -/
def listHasSub (nd : List Char) : List Char → Bool
  | [] => listHasPref nd []
  | c :: t => listHasPref nd (c :: t) || listHasSub nd t

/-- `hay.includes(nd)` on strings. -/
def strIncludes (hay nd : String) : Bool := listHasSub nd.data hay.data

/-- Whether the regex alternation of the literal patterns `pats` matches
somewhere in `u`, case-insensitively (the `/i` flag): every pattern in the
source is lower-case, so the subject is lower-cased first. -/
def unitMatchesAny (u : String) (pats : List String) : Bool :=
  pats.any (fun p => strIncludes (jsToLower u) p)

/-- `unit.match(/g|kg|oz|lb/i)` is non-null. -/
def unitIsWeight (u : String) : Bool := unitMatchesAny u ["g", "kg", "oz", "lb"]

/-- `unit.match(/ml|l|tbsp|tsp|cup/i)` is non-null. -/
def unitIsVolume (u : String) : Bool := unitMatchesAny u ["ml", "l", "tbsp", "tsp", "cup"]

/-- `unit.match(/piece|unit|pack|bunch/i)` is non-null. -/
def unitIsCount (u : String) : Bool := unitMatchesAny u ["piece", "unit", "pack", "bunch"]

/-! ### parseFloat and the quantity regex -/

/-- Numeric value of one decimal digit. -/
def digitVal (c : Char) : ℚ := ((c.toNat - 48 : ℕ) : ℚ)

/-- Value of a run of decimal digits (empty run gives 0). -/
def digitsVal (l : List Char) : ℚ := l.foldl (fun a c => 10 * a + digitVal c) 0

/-- Value of a run of digits read as a fraction after the decimal point. -/
def fracVal (l : List Char) : ℚ := digitsVal l / 10 ^ l.length

/-- `parseFloat` as it acts on the strings produced here (runs of digits and
dots, no sign and no exponent): an integer part, optionally a dot and a
fractional part; trailing junk is ignored; no digits at all gives NaN. -/
def jsParseFloat (s : String) : JSNum :=
  let ds := s.data.takeWhile Char.isDigit
  match s.data.dropWhile Char.isDigit with
  | '.' :: rest2 =>
    let fs := rest2.takeWhile Char.isDigit
    if ds.isEmpty && fs.isEmpty then JSNum.nan
    else JSNum.num (digitsVal ds + fracVal fs)
  | _ => if ds.isEmpty then JSNum.nan else JSNum.num (digitsVal ds)

/-- One backtracking step of `/^([\d.]+)\s*(.+)$/` once the first group has
been fixed: `rest` is what remains after the first group; `\s*` is greedy,
`.` matches anything but a newline, and `(.+)$` must take all of the rest.
Returns the text of the second group when some split succeeds. -/
def matchRest (rest : List Char) : Option (List Char) :=
  let tail := rest.dropWhile isWs
  if tail.isEmpty then
    match rest.getLast? with
    | some c => if c = '\n' then none else some [c]
    | none => none
  else if tail.any (fun c => c = '\n') then none else some tail

/-- Backtracking over the length of the greedy first group `([\d.]+)`:
lengths are tried from `k` down to 1. -/
def tryK (cs : List Char) : Nat → Option (List Char × List Char)
  | 0 => none
  | k + 1 =>
    match matchRest (cs.drop (k + 1)) with
    | some b => some (cs.take (k + 1), b)
    | none => tryK cs k

/-- `quantity.match(/^([\d.]+)\s*(.+)$/)`: the two capture groups, or
`none` when the regex does not match. -/
def jsMatchQuantity (s : String) : Option (String × String) :=
  (tryK s.data ((s.data.takeWhile isDigitOrDot).length)).map
    (fun p => (⟨p.1⟩, ⟨p.2⟩))

/-- A parsed quantity: numeric value and unit token. -/
structure Quantity where
  value : JSNum
  unit : String
deriving DecidableEq

/-- `parseQuantity` from the shopping calculator: regex split of the
quantity string; on failure the value defaults to 1 and the whole string
becomes the unit. -/
def parseQuantity (quantity : String) : Quantity :=
  match jsMatchQuantity quantity with
  | none => ⟨JSNum.num 1, quantity⟩
  | some m => ⟨jsParseFloat m.1, jsTrim m.2⟩

/-! ### convertUnit -/

/-- `conversionMap["piece to g"][ingredient] || 100`. -/
def gramsPerPiece (ingredient : String) : ℚ :=
  if ingredient = "chicken breast" then 200
  else if ingredient = "bell pepper" then 150
  else if ingredient = "garlic" then 5
  else if ingredient = "lemon" then 100
  else if ingredient = "spring onion" then 30
  else 100

/-- `conversionMap["bulb to g"][ingredient] || 45` (the table only lists
garlic, and the default coincides with it). -/
def gramsPerBulb (ingredient : String) : ℚ :=
  if ingredient = "garlic" then 45 else 45

/-- `convertUnit` from the shopping calculator: identity on equal units,
fixed factors for weight and volume pairs, ingredient-aware piece and bulb
conversions, and otherwise a no-op returning the value unchanged. -/
def convertUnit (value : JSNum) (fromUnit toUnit ingredient : String) : JSNum :=
  if fromUnit = toUnit then value
  else if fromUnit = "g" ∧ toUnit = "kg" then jsMul value (JSNum.num (1 / 1000))
  else if fromUnit = "kg" ∧ toUnit = "g" then jsMul value (JSNum.num 1000)
  else if fromUnit = "ml" ∧ toUnit = "l" then jsMul value (JSNum.num (1 / 1000))
  else if fromUnit = "l" ∧ toUnit = "ml" then jsMul value (JSNum.num 1000)
  else if fromUnit = "tbsp" ∧ toUnit = "ml" then jsMul value (JSNum.num 15)
  else if fromUnit = "tsp" ∧ toUnit = "ml" then jsMul value (JSNum.num 5)
  else if fromUnit = "cup" ∧ toUnit = "ml" then jsMul value (JSNum.num 250)
  else if fromUnit = "piece" ∧ (toUnit = "g" ∨ toUnit = "kg") then
    jsMul (jsMul value (JSNum.num (gramsPerPiece ingredient)))
      (JSNum.num (if toUnit = "kg" then 1 / 1000 else 1))
  else if fromUnit = "bulb" ∧ (toUnit = "g" ∨ toUnit = "kg") then
    jsMul (jsMul value (JSNum.num (gramsPerBulb ingredient)))
      (JSNum.num (if toUnit = "kg" then 1 / 1000 else 1))
  else value

/-! ### The static package table and the estimator -/

/-- A package entry of the static table and of the durable cache:
a size string and a price. -/
structure PkgSP where
  size : String
  price : JSNum
deriving DecidableEq

/-- The built-in `PACKAGE_SIZES` table. -/
def PACKAGE_SIZES : List (String × PkgSP) :=
  [("chicken breast", ⟨"500g", .num (599 / 100)⟩),
   ("ground beef", ⟨"500g", .num (499 / 100)⟩),
   ("salmon fillet", ⟨"250g", .num (699 / 100)⟩),
   ("tofu", ⟨"400g", .num (249 / 100)⟩),
   ("rice", ⟨"1kg", .num (299 / 100)⟩),
   ("pasta", ⟨"500g", .num (199 / 100)⟩),
   ("quinoa", ⟨"500g", .num (499 / 100)⟩),
   ("flour", ⟨"1kg", .num (249 / 100)⟩),
   ("cornflour", ⟨"500g", .num (199 / 100)⟩),
   ("olive oil", ⟨"500ml", .num (699 / 100)⟩),
   ("vegetable oil", ⟨"1L", .num (349 / 100)⟩),
   ("soy sauce", ⟨"150ml", .num (279 / 100)⟩),
   ("honey", ⟨"340g", .num (499 / 100)⟩),
   ("sesame oil", ⟨"250ml", .num (499 / 100)⟩),
   ("rice vinegar", ⟨"150ml", .num (249 / 100)⟩),
   ("salt", ⟨"750g", .num (129 / 100)⟩),
   ("black pepper", ⟨"100g", .num (299 / 100)⟩),
   ("garlic powder", ⟨"50g", .num (249 / 100)⟩),
   ("ginger", ⟨"100g", .num (199 / 100)⟩),
   ("garlic", ⟨"3 bulbs", .num (229 / 100)⟩),
   ("sesame seeds", ⟨"100g", .num (279 / 100)⟩),
   ("bell pepper", ⟨"3 pack", .num (299 / 100)⟩),
   ("spring onion", ⟨"bunch", .num (129 / 100)⟩),
   ("onion", ⟨"3 pack", .num (199 / 100)⟩),
   ("tomato", ⟨"6 pack", .num (249 / 100)⟩),
   ("lemon", ⟨"3 pack", .num (249 / 100)⟩)]

/-- Property access `PACKAGE_SIZES[name]`. -/
def packageSizesLookup (k : String) : Option PkgSP :=
  (PACKAGE_SIZES.find? (fun e => e.1 = k)).map (fun e => e.2)

/-- `estimatePackageInfo`: category heuristic over name fragments. -/
def estimatePackageInfo (ingredientName : String) : PkgSP :=
  let name := jsToLower ingredientName
  if strIncludes name "chicken" || strIncludes name "beef" || strIncludes name "fish" ||
      strIncludes name "pork" || strIncludes name "tofu" || strIncludes name "meat" then
    ⟨"500g", .num (599 / 100)⟩
  else if strIncludes name "rice" || strIncludes name "pasta" || strIncludes name "flour" ||
      strIncludes name "grain" || strIncludes name "quinoa" || strIncludes name "bean" then
    ⟨"1kg", .num (299 / 100)⟩
  else if strIncludes name "oil" || strIncludes name "sauce" || strIncludes name "vinegar" ||
      strIncludes name "juice" || strIncludes name "milk" || strIncludes name "cream" then
    ⟨"500ml", .num (399 / 100)⟩
  else if strIncludes name "spice" || strIncludes name "herb" || strIncludes name "powder" ||
      strIncludes name "salt" || strIncludes name "pepper" || strIncludes name "seasoning" then
    ⟨"50g", .num (249 / 100)⟩
  else if strIncludes name "vegetable" || strIncludes name "fruit" || strIncludes name "onion" ||
      strIncludes name "pepper" || strIncludes name "carrot" || strIncludes name "tomato" ||
      strIncludes name "lettuce" || strIncludes name "potato" then
    ⟨"500g", .num (249 / 100)⟩
  else ⟨"250g", .num (349 / 100)⟩

/-! ### The TTL cache (`SimpleCache` in cacheService.js and the identical
`PackageSizeCache` in the shopping calculator; persistence to the backing
file is external I/O and is outside the in-memory contract modelled here) -/

/-- The in-memory `Map` of a cache: entries `(key, (value, expiry))`. -/
def CacheMap (α : Type) : Type := List (String × α × ℤ)

/-- `Map.prototype.get`. -/
def mapFind {α : Type} (st : CacheMap α) (k : String) : Option (α × ℤ) :=
  (List.find? (fun e => e.1 = k) st).map (fun e => e.2)

/-- `Map.prototype.set`: overwrite the entry for the key or append one. -/
def mapSet {α : Type} : CacheMap α → String → α × ℤ → CacheMap α
  | [], k, v => [(k, v)]
  | e :: t, k, v => if e.1 = k then (k, v) :: t else e :: mapSet t k v

/-- `Map.prototype.delete`. -/
def mapDel {α : Type} : CacheMap α → String → CacheMap α
  | [], _ => []
  | e :: t, k => if e.1 = k then t else e :: mapDel t k

/-- `SimpleCache.set` / `PackageSizeCache.set`: store with
`expiry = now + ttl`. -/
def SimpleCache.set {α : Type} (ttl : ℤ) (st : CacheMap α) (key : String) (value : α)
    (now : ℤ) : CacheMap α :=
  mapSet st key (value, now + ttl)

/-- `SimpleCache.get` / `PackageSizeCache.get`: return the value while
`now <= expiry`; when `now > expiry` delete the entry and return null.
The updated map is returned alongside. -/
def SimpleCache.get {α : Type} (st : CacheMap α) (key : String) (now : ℤ) :
    Option α × CacheMap α :=
  match mapFind st key with
  | none => (none, st)
  | some (v, expiry) => if now > expiry then (none, mapDel st key) else (some v, st)

/-! ### The package resolver -/

/-- The `PackageSizeCache` TTL: 30 days in milliseconds. -/
def pkgTtl : ℤ := 2592000000

/-- `ingredientName.toLowerCase().trim()`. -/
def normalizeName (s : String) : String := jsTrim (jsToLower s)

/-- Result of `ingredientPriceCache.get(name)`: the code only reads the
`price` field, which may be null. -/
structure PriceInfo where
  price : Option JSNum
deriving DecidableEq

/-- Outcome of the remote product lookup (the two axios calls plus
`extractPackageSizeFromProduct`), abstracted as external input: an
exception anywhere inside the try block, no usable product, or an
extracted size with an optional price. -/
inductive RemoteOutcome where
  | throws
  | miss
  | found (size : String) (price : Option JSNum)
deriving DecidableEq

/-- The external world of the resolver and aggregator: presence of the
API key, the ingredient price cache, the remote product lookup, and
`calculateIngredientCost(ingredient).total` keyed by name and quantity. -/
structure Env where
  hasApiKey : Bool
  priceCache : String → Option PriceInfo
  remote : String → RemoteOutcome
  apiCostOf : String → String → JSNum

/-- `!priceInfo || !priceInfo.price`. -/
def priceInfoFalsy : Option PriceInfo → Bool
  | none => true
  | some pi =>
    match pi.price with
    | none => true
    | some p => !(jsTruthy p)

/-- `packageSize.price || (priceInfo ? priceInfo.price * 10 : 3.99)`:
a falsy extracted price falls back to ten times the cached price (null
coerces to 0) or to 3.99. -/
def remotePrice (pOpt : Option JSNum) (priceInfo : Option PriceInfo) : JSNum :=
  let fallback :=
    match priceInfo with
    | some pi => jsMul (match pi.price with | some p => p | none => JSNum.num 0) (JSNum.num 10)
    | none => JSNum.num (399 / 100)
  match pOpt with
  | some p => if jsTruthy p then p else fallback
  | none => fallback

/-- A package descriptor returned to callers: size, price and the
provenance tag. -/
structure PkgInfo where
  size : String
  price : JSNum
  source : String
deriving DecidableEq

/-- `getPackageInfo`: normalize the name, then try the static table, the
durable package-size cache, the remote lookup (only with an API key and
only when the price cache has no usable price), and finally the category
estimate.  A remote success and an ordinary estimate are written to the
cache; the catch branch returns an estimate tagged "estimated (after
error)" without caching it.  The function always returns a descriptor. -/
def getPackageInfo (env : Env) (st : CacheMap PkgSP) (now : ℤ) (ingredientName : String) :
    PkgInfo × CacheMap PkgSP :=
  let normalizedName := normalizeName ingredientName
  match packageSizesLookup normalizedName with
  | some p => (⟨p.size, p.price, "hardcoded database"⟩, st)
  | none =>
    match SimpleCache.get st normalizedName now with
    | (some v, st₁) => (⟨v.size, v.price, "package cache"⟩, st₁)
    | (none, st₁) =>
      if env.hasApiKey && priceInfoFalsy (env.priceCache normalizedName) then
        match env.remote normalizedName with
        | .throws =>
          let e := estimatePackageInfo normalizedName
          (⟨e.size, e.price, "estimated (after error)"⟩, st₁)
        | .found size pOpt =>
          let price := remotePrice pOpt (env.priceCache normalizedName)
          (⟨size, price, "spoonacular API"⟩,
            SimpleCache.set pkgTtl st₁ normalizedName ⟨size, price⟩ now)
        | .miss =>
          let e := estimatePackageInfo normalizedName
          (⟨e.size, e.price, "estimated"⟩, SimpleCache.set pkgTtl st₁ normalizedName e now)
      else
        let e := estimatePackageInfo normalizedName
        (⟨e.size, e.price, "estimated"⟩, SimpleCache.set pkgTtl st₁ normalizedName e now)

/-! ### The usage calculator -/

/-- A recipe ingredient: name and quantity string. -/
structure Ingredient where
  name : String
  quantity : String
deriving DecidableEq

/-- The record returned by `calculatePackageUsage`. -/
structure UsageResult where
  percentUsed : JSNum
  packagePrice : JSNum
  usedCost : JSNum
  packageSize : String
deriving DecidableEq

/-- The `percentUsed` value of `calculatePackageUsage` before the final
`Math.min(1, ...)` cap: same-category division in a common unit, the
count-to-weight cross conversion, and the fixed 0.5 for every other
mismatch. -/
def rawPercentUsed (ingredient : Ingredient) (packageInfo : PkgInfo) : JSNum :=
  let recipeQty := parseQuantity ingredient.quantity
  let packageQty := parseQuantity packageInfo.size
  if unitIsWeight recipeQty.unit && unitIsWeight packageQty.unit then
    jsDiv (convertUnit recipeQty.value recipeQty.unit "g" ingredient.name)
      (convertUnit packageQty.value packageQty.unit "g" ingredient.name)
  else if unitIsVolume recipeQty.unit && unitIsVolume packageQty.unit then
    jsDiv (convertUnit recipeQty.value recipeQty.unit "ml" ingredient.name)
      (convertUnit packageQty.value packageQty.unit "ml" ingredient.name)
  else if unitIsCount recipeQty.unit && unitIsCount packageQty.unit then
    jsDiv recipeQty.value packageQty.value
  else if unitIsCount recipeQty.unit && unitIsWeight packageQty.unit then
    jsDiv (convertUnit recipeQty.value recipeQty.unit "g" ingredient.name)
      (convertUnit packageQty.value packageQty.unit "g" ingredient.name)
  else JSNum.num (1 / 2)

/-- `calculatePackageUsage`: the percentage is capped at 1 and the used
cost is the package price times the capped percentage. -/
def calculatePackageUsage (ingredient : Ingredient) (packageInfo : PkgInfo) : UsageResult :=
  let percentUsed := rawPercentUsed ingredient packageInfo
  ⟨jsMin1 percentUsed, packageInfo.price,
    jsMul packageInfo.price (jsMin1 percentUsed), packageInfo.size⟩

/-! ### The shopping cost aggregator -/

/-- One per-ingredient line of the shopping summary. -/
structure CostedIngredient where
  name : String
  quantity : String
  apiCost : JSNum
  packageSize : String
  packagePrice : JSNum
  percentUsed : JSNum
  costInRecipe : JSNum
  source : String
deriving DecidableEq

/-- The record returned by `calculateShoppingCost`. -/
structure ShoppingSummary where
  ingredients : List CostedIngredient
  totalPackagePrice : JSNum
  totalRecipeCost : JSNum
  leftoverValue : JSNum
deriving DecidableEq

/-- The per-ingredient pass of `calculateShoppingCost`: look up the API
cost, resolve the package (the call site lower-cases the name) and run the
usage calculator.  `getPackageInfo` returns a descriptor on every path, so
the source's null-package fallback branch is unreachable and does not
appear.  The shared cache is threaded through in list order. -/
def shoppingItems (env : Env) (now : ℤ) :
    List Ingredient → CacheMap PkgSP → List CostedIngredient × CacheMap PkgSP
  | [], st => ([], st)
  | ing :: rest, st =>
    let apiCost := env.apiCostOf ing.name ing.quantity
    let r := getPackageInfo env st now (jsToLower ing.name)
    let usage := calculatePackageUsage ing r.1
    let item : CostedIngredient :=
      ⟨ing.name, ing.quantity, apiCost, r.1.size, r.1.price,
        usage.percentUsed, usage.usedCost, r.1.source⟩
    let rest' := shoppingItems env now rest r.2
    (item :: rest'.1, rest'.2)

/-- `calculateShoppingCost`: per-ingredient lines plus the three totals. -/
def calculateShoppingCost (env : Env) (st : CacheMap PkgSP) (now : ℤ)
    (ingredients : List Ingredient) : ShoppingSummary × CacheMap PkgSP :=
  let r := shoppingItems env now ingredients st
  let totalPackagePrice := r.1.foldl (fun sum item => jsAdd sum item.packagePrice) (JSNum.num 0)
  let totalRecipeCost := r.1.foldl (fun sum item => jsAdd sum item.costInRecipe) (JSNum.num 0)
  (⟨r.1, totalPackagePrice, totalRecipeCost, jsSub totalPackagePrice totalRecipeCost⟩, r.2)

/-! ### Concrete environments used for witnesses and counterexamples -/

/-- An environment with no API key: the resolver can only use the static
table, the cache and the estimator. -/
def envPlain : Env :=
  ⟨false, fun _ => none, fun _ => RemoteOutcome.miss, fun _ _ => JSNum.num 0⟩

/-- An environment whose remote product lookup always throws. -/
def envThrows : Env :=
  ⟨true, fun _ => none, fun _ => RemoteOutcome.throws, fun _ _ => JSNum.num 0⟩

/-! ### Definitions used to state the parser claims -/

/-- Natural-number value of a run of decimal digits (used to evaluate
`digitsVal` through a kernel-computable function). -/
def digitsNat (l : List Char) : ℕ := l.foldl (fun a c => 10 * a + (c.toNat - 48)) 0

/-- Modelled from the spec: a `<number>` token — decimal digits with at
most one decimal point and at least one digit (integer part, optionally a
dot and a fractional part, nothing else). -/
def isNumberLit (s : String) : Bool :=
  let ds := s.data.takeWhile Char.isDigit
  match s.data.dropWhile Char.isDigit with
  | [] => !ds.isEmpty
  | '.' :: fs => (!ds.isEmpty || !fs.isEmpty) && fs.all Char.isDigit
  | _ => false

/-- Modelled from the spec: the numeric value of a `<number>` token —
the integer part plus the fractional part scaled by a power of ten. -/
def decimalValue (s : String) : ℚ :=
  let ds := s.data.takeWhile Char.isDigit
  match s.data.dropWhile Char.isDigit with
  | '.' :: rest2 => digitsVal ds + fracVal (rest2.takeWhile Char.isDigit)
  | _ => digitsVal ds

/-- The string has no numeric prefix: it is empty or starts with a
character outside `[\d.]`, so the quantity regex cannot match. -/
def noNumericStart (s : String) : Bool :=
  match s.data with
  | [] => true
  | c :: _ => !(isDigitOrDot c)

/-- The one-character string holding the last character of `s`. -/
def lastCharStr (s : String) : String := ⟨s.data.drop (s.data.length - 1)⟩

/-! ### Helper lemmas -/

/-- Nonnegative-or-special JavaScript numbers: every quantity value and
every intermediate of the usage calculation stays in this set. -/
def NNJS (x : JSNum) : Prop :=
  x = JSNum.nan ∨ x = JSNum.inf ∨ ∃ q : ℚ, x = JSNum.num q ∧ 0 ≤ q

lemma nnjs_num {q : ℚ} (h : 0 ≤ q) : NNJS (JSNum.num q) :=
  Or.inr (Or.inr ⟨q, rfl, h⟩)

lemma nnjs_mul_pos {x : JSNum} {c : ℚ} (hx : NNJS x) (hc : 0 < c) :
    NNJS (jsMul x (JSNum.num c)) := by
  rcases hx with h | h | ⟨q, h, hq⟩ <;> subst h
  · exact Or.inl rfl
  · simp only [jsMul, if_pos hc]
    exact Or.inr (Or.inl rfl)
  · exact nnjs_num (mul_nonneg hq hc.le)

lemma nnjs_div {a b : JSNum} (ha : NNJS a) (hb : NNJS b) : NNJS (jsDiv a b) := by
  rcases ha with h | h | ⟨p, h, hp⟩ <;> subst h <;>
    rcases hb with h | h | ⟨q, h, hq⟩ <;> subst h
  · exact Or.inl rfl
  · exact Or.inl rfl
  · exact Or.inl rfl
  · exact Or.inl rfl
  · exact Or.inl rfl
  · simp only [jsDiv, if_pos hq]
    exact Or.inr (Or.inl rfl)
  · exact Or.inl rfl
  · exact nnjs_num le_rfl
  · simp only [jsDiv]
    split_ifs with h1 h2 h3
    · exact nnjs_num (div_nonneg hp hq)
    · exact Or.inr (Or.inl rfl)
    · exact absurd h3 (not_lt.mpr hp)
    · exact Or.inl rfl

lemma digitsVal_nonneg (l : List Char) : 0 ≤ digitsVal l := by
  have hd : ∀ (l : List Char) (a : ℚ), 0 ≤ a →
      0 ≤ l.foldl (fun a c => 10 * a + digitVal c) a := by
    intro l
    induction l with
    | nil => intro a ha; exact ha
    | cons c t ih =>
      intro a ha
      refine ih _ (add_nonneg (mul_nonneg (by norm_num) ha) ?_)
      exact Nat.cast_nonneg _
  exact hd l 0 le_rfl

lemma nnjs_jsParseFloat (s : String) : NNJS (jsParseFloat s) := by
  simp only [jsParseFloat]
  split
  · split
    · exact Or.inl rfl
    · refine nnjs_num (add_nonneg (digitsVal_nonneg _) ?_)
      exact div_nonneg (digitsVal_nonneg _) (by positivity)
  · split
    · exact Or.inl rfl
    · exact nnjs_num (digitsVal_nonneg _)

lemma nnjs_parseQuantity (s : String) : NNJS (parseQuantity s).value := by
  unfold parseQuantity
  cases jsMatchQuantity s with
  | none => exact nnjs_num zero_le_one
  | some m => exact nnjs_jsParseFloat m.1

lemma gramsPerPiece_pos (i : String) : 0 < gramsPerPiece i := by
  unfold gramsPerPiece
  split_ifs <;> norm_num

lemma gramsPerBulb_pos (i : String) : 0 < gramsPerBulb i := by
  unfold gramsPerBulb
  split_ifs <;> norm_num

set_option maxHeartbeats 1000000 in
lemma nnjs_convertUnit {v : JSNum} (hv : NNJS v) (fu tu ing : String) :
    NNJS (convertUnit v fu tu ing) := by
  unfold convertUnit
  split_ifs <;>
    first
      | exact hv
      | exact nnjs_mul_pos hv (by norm_num)
      | exact nnjs_mul_pos (nnjs_mul_pos hv (gramsPerPiece_pos ing)) (by norm_num)
      | exact nnjs_mul_pos (nnjs_mul_pos hv (gramsPerBulb_pos ing)) (by norm_num)

lemma nnjs_rawPercentUsed (ingredient : Ingredient) (packageInfo : PkgInfo) :
    NNJS (rawPercentUsed ingredient packageInfo) := by
  simp only [rawPercentUsed]
  split_ifs <;>
    first
      | exact nnjs_div (nnjs_convertUnit (nnjs_parseQuantity _) _ _ _)
          (nnjs_convertUnit (nnjs_parseQuantity _) _ _ _)
      | exact nnjs_div (nnjs_parseQuantity _) (nnjs_parseQuantity _)
      | exact nnjs_num (by norm_num)

lemma min1_unit_or_nan {x : JSNum} (hx : NNJS x) :
    inUnitB (jsMin1 x) = true ∨ jsMin1 x = JSNum.nan := by
  rcases hx with h | h | ⟨q, h, hq⟩ <;> subst h
  · exact Or.inr rfl
  · left
    simp only [jsMin1, inUnitB, decide_eq_true_eq]
    exact ⟨zero_le_one, le_refl 1⟩
  · left
    simp only [jsMin1, inUnitB, decide_eq_true_eq]
    split_ifs with h1
    · exact ⟨hq, h1⟩
    · exact ⟨zero_le_one, le_refl 1⟩

lemma inUnitB_elim {x : JSNum} (h : inUnitB x = true) :
    ∃ q : ℚ, x = JSNum.num q ∧ 0 ≤ q ∧ q ≤ 1 := by
  cases x with
  | num q =>
    refine ⟨q, rfl, ?_⟩
    simpa [inUnitB] using h
  | inf => simp [inUnitB] at h
  | negInf => simp [inUnitB] at h
  | nan => simp [inUnitB] at h

/-- The two facts about `calculatePackageUsage` that the clamp and the
aggregator arguments rest on: the used cost is the price times the
returned percentage, and the returned percentage is in `[0, 1]` unless it
is NaN. -/
lemma usage_spec (ingredient : Ingredient) (packageInfo : PkgInfo) :
    (calculatePackageUsage ingredient packageInfo).usedCost
      = jsMul packageInfo.price ((calculatePackageUsage ingredient packageInfo).percentUsed)
    ∧ (inUnitB (calculatePackageUsage ingredient packageInfo).percentUsed = true
        ∨ (calculatePackageUsage ingredient packageInfo).percentUsed = JSNum.nan) := by
  refine ⟨rfl, ?_⟩
  exact min1_unit_or_nan (nnjs_rawPercentUsed ingredient packageInfo)

lemma mapFind_mapSet {α : Type} (st : CacheMap α) (k : String) (v : α × ℤ) :
    mapFind (mapSet st k v) k = some v := by
  induction st with
  | nil => simp [mapSet, mapFind, List.find?]
  | cons e t ih =>
    by_cases h : e.1 = k
    · simp [mapSet, h, mapFind, List.find?]
    · simp only [mapSet, if_neg h]
      simpa [mapFind, List.find?, h] using ih

/-! ### C3: cache TTL expiry -/

/-- C3 (amended): an entry stored by `set` at time `t0` with TTL `T` is
returned by `get` for every call at time `t ≤ t0 + T`; for every call at
time `t > t0 + T`, `get` returns null and deletes the entry from the map.
(The claim's boundary `t = t0 + T` belongs to the visible side: the code
expires an entry only when `now > expiry`.) -/
theorem simpleCache_ttl {α : Type} (st : CacheMap α) (key : String) (value : α)
    (ttl t0 t : ℤ) :
    (t ≤ t0 + ttl →
      SimpleCache.get (SimpleCache.set ttl st key value t0) key t
        = (some value, SimpleCache.set ttl st key value t0))
    ∧ (t0 + ttl < t →
      SimpleCache.get (SimpleCache.set ttl st key value t0) key t
        = (none, mapDel (SimpleCache.set ttl st key value t0) key)) := by
  have hfind : mapFind (SimpleCache.set ttl st key value t0) key = some (value, t0 + ttl) :=
    mapFind_mapSet st key (value, t0 + ttl)
  constructor
  · intro ht
    simp only [SimpleCache.get, hfind]
    rw [if_neg (not_lt.mpr ht)]
  · intro ht
    simp only [SimpleCache.get, hfind]
    rw [if_pos ht]

/-- Witness for C3 at a concrete instantiation: `ttl = 10`, stored at
`t0 = 0`, visible at `t = 10`, gone at `t = 11`. -/
theorem simpleCache_ttl_witness :
    SimpleCache.get (SimpleCache.set 10 ([] : CacheMap ℚ) "a" 5 0) "a" 10
        = (some 5, SimpleCache.set 10 ([] : CacheMap ℚ) "a" 5 0)
    ∧ SimpleCache.get (SimpleCache.set 10 ([] : CacheMap ℚ) "a" 5 0) "a" 11
        = (none, mapDel (SimpleCache.set 10 ([] : CacheMap ℚ) "a" 5 0) "a") :=
  ⟨(simpleCache_ttl [] "a" 5 10 0 10).1 (by decide),
   (simpleCache_ttl [] "a" 5 10 0 11).2 (by decide)⟩

/-- Counterexample to C3 as stated: the claim demands that `get` return
null for every call at `t ≥ t0 + T`, but at the boundary `t = t0 + T`
(here `t0 = 0`, `T = 10`, `t = 10`) the code still returns the value,
because expiry requires `now > expiry`. -/
theorem simpleCache_ttl_boundary_cex :
    (SimpleCache.get (SimpleCache.set 10 ([] : CacheMap ℚ) "a" 5 0) "a" 10).1 = some 5
    ∧ some (5 : ℚ) ≠ none := by decide

/-! ### C5: mismatched unit categories give 0.5 -/

/-- C5: for every recipe quantity and package size whose unit categories
match in none of the four handled ways (weight/weight, volume/volume,
count/count, count-recipe/weight-package), `calculatePackageUsage`
returns exactly `percentUsed = 0.5`; in particular salt, "1 tsp" against
the static package "750g" at 1.29 yields 0.5. -/
theorem calculatePackageUsage_mismatch_half :
    (∀ (ingredient : Ingredient) (packageInfo : PkgInfo),
      (unitIsWeight (parseQuantity ingredient.quantity).unit
        && unitIsWeight (parseQuantity packageInfo.size).unit) = false →
      (unitIsVolume (parseQuantity ingredient.quantity).unit
        && unitIsVolume (parseQuantity packageInfo.size).unit) = false →
      (unitIsCount (parseQuantity ingredient.quantity).unit
        && unitIsCount (parseQuantity packageInfo.size).unit) = false →
      (unitIsCount (parseQuantity ingredient.quantity).unit
        && unitIsWeight (parseQuantity packageInfo.size).unit) = false →
      (calculatePackageUsage ingredient packageInfo).percentUsed = JSNum.num (1 / 2))
    ∧ (calculatePackageUsage ⟨"salt", "1 tsp"⟩
        ⟨"750g", JSNum.num (129 / 100), "hardcoded database"⟩).percentUsed
      = JSNum.num (1 / 2) := by
  constructor
  · intro ingredient packageInfo h1 h2 h3 h4
    have hraw : rawPercentUsed ingredient packageInfo = JSNum.num (1 / 2) := by
      simp only [rawPercentUsed, h1, h2, h3, h4, Bool.false_eq_true, if_false]
    show jsMin1 (rawPercentUsed ingredient packageInfo) = JSNum.num (1 / 2)
    rw [hraw]
    simp only [jsMin1]
    norm_num
  · show jsMin1 (rawPercentUsed ⟨"salt", "1 tsp"⟩
      ⟨"750g", JSNum.num (129 / 100), "hardcoded database"⟩) = JSNum.num (1 / 2)
    have hraw : rawPercentUsed ⟨"salt", "1 tsp"⟩
        ⟨"750g", JSNum.num (129 / 100), "hardcoded database"⟩ = JSNum.num (1 / 2) := rfl
    rw [hraw]
    simp only [jsMin1]
    norm_num

/-- Witness for C5: a volume-recipe/count-package pairing (no conversion
path) gets the fixed 0.5. -/
theorem calculatePackageUsage_mismatch_half_witness :
    (calculatePackageUsage ⟨"x", "1 tsp"⟩ ⟨"3 pack", JSNum.num 1, "estimated"⟩).percentUsed
      = JSNum.num (1 / 2) :=
  calculatePackageUsage_mismatch_half.1 ⟨"x", "1 tsp"⟩ ⟨"3 pack", JSNum.num 1, "estimated"⟩
    (by decide) (by decide) (by decide) (by decide)

/-! ### C2: the clamp law -/

/-- C2 (amended): `percentUsed` is a rational in the closed interval
`[0, 1]` unless the computed ratio is NaN (which happens for degenerate
inputs such as a `0/0` division or an unparseable numeric prefix), and
`usedCost` equals `packagePrice * percentUsed` in every case. -/
theorem calculatePackageUsage_clamp (ingredient : Ingredient) (packageInfo : PkgInfo) :
    (inUnitB (calculatePackageUsage ingredient packageInfo).percentUsed = true
      ∨ (calculatePackageUsage ingredient packageInfo).percentUsed = JSNum.nan)
    ∧ (calculatePackageUsage ingredient packageInfo).usedCost
        = jsMul packageInfo.price ((calculatePackageUsage ingredient packageInfo).percentUsed) :=
  ⟨(usage_spec ingredient packageInfo).2, (usage_spec ingredient packageInfo).1⟩

/-- Counterexample to C2 as stated: the quantity string "..g" parses to a
weight quantity whose numeric prefix ".." gives `parseFloat("..") = NaN`;
the weight-to-weight ratio `NaN / 750` is NaN, `Math.min(1, NaN) = NaN`,
so the returned `percentUsed` is NaN, which does not lie in `[0, 1]`
(every comparison with NaN is false in JavaScript). -/
theorem calculatePackageUsage_clamp_cex :
    inUnitB (calculatePackageUsage ⟨"x", "..g"⟩
        ⟨"750g", JSNum.num 1, "hardcoded database"⟩).percentUsed = false
    ∧ (calculatePackageUsage ⟨"x", "..g"⟩
        ⟨"750g", JSNum.num 1, "hardcoded database"⟩).percentUsed = JSNum.nan := by
  exact ⟨rfl, rfl⟩

/-! ### String lemmas for the parser claims -/

lemma ws_not_digitOrDot {c : Char} (h : isWs c = true) : isDigitOrDot c = false := by
  simp only [isWs, Bool.or_eq_true, decide_eq_true_eq] at h
  rcases h with ((((h | h) | h) | h) | h) | h <;> subst h <;> rfl

lemma digitOrDot_not_ws {c : Char} (h : isDigitOrDot c = true) : isWs c = false := by
  cases hw : isWs c with
  | false => rfl
  | true => rw [ws_not_digitOrDot hw] at h; exact absurd h (by simp)

lemma digitOrDot_ne_newline {c : Char} (h : isDigitOrDot c = true) : c ≠ '\n' := by
  intro he
  subst he
  exact absurd h (by decide)

lemma takeWhile_append_of_all {p : Char → Bool} {xs ys : List Char}
    (hx : ∀ c ∈ xs, p c = true) (hy : ∀ c, ys.head? = some c → p c = false) :
    (xs ++ ys).takeWhile p = xs := by
  induction xs with
  | nil =>
    cases ys with
    | nil => rfl
    | cons c t => simp [List.takeWhile_cons, hy c rfl]
  | cons a as ih =>
    simp only [List.cons_append, List.takeWhile_cons, hx a (List.mem_cons_self a as), if_true]
    rw [ih (fun c hc => hx c (List.mem_cons_of_mem a hc))]

lemma dropWhile_append_of_all {p : Char → Bool} {xs ys : List Char}
    (hx : ∀ c ∈ xs, p c = true) (hy : ∀ c, ys.head? = some c → p c = false) :
    (xs ++ ys).dropWhile p = ys := by
  induction xs with
  | nil =>
    cases ys with
    | nil => rfl
    | cons c t => simp [List.dropWhile_cons, hy c rfl]
  | cons a as ih =>
    simp only [List.cons_append, List.dropWhile_cons, hx a (List.mem_cons_self a as), if_true]
    exact ih (fun c hc => hx c (List.mem_cons_of_mem a hc))

lemma takeWhile_of_all {p : Char → Bool} {xs : List Char}
    (hx : ∀ c ∈ xs, p c = true) : xs.takeWhile p = xs := by
  induction xs with
  | nil => rfl
  | cons a as ih =>
    simp only [List.takeWhile_cons, hx a (List.mem_cons_self a as), if_true]
    rw [ih (fun c hc => hx c (List.mem_cons_of_mem a hc))]

lemma digitsVal_eq_cast (l : List Char) : digitsVal l = ((digitsNat l : ℕ) : ℚ) := by
  have aux : ∀ (l : List Char) (a : ℕ),
      List.foldl (fun a c => 10 * a + digitVal c) (a : ℚ) l
        = ((List.foldl (fun a c => 10 * a + (c.toNat - 48)) a l : ℕ) : ℚ) := by
    intro l
    induction l with
    | nil => intro a; rfl
    | cons c t ih =>
      intro a
      have hstep : 10 * (a : ℚ) + digitVal c = ((10 * a + (c.toNat - 48) : ℕ) : ℚ) := by
        simp only [digitVal]
        push_cast
        ring
      simp only [List.foldl_cons, hstep, ih]
  simpa using aux l 0

/-- Evaluation of `jsParseFloat` on an all-digit string. -/
lemma jsParseFloat_int_eval (s : String) (n : ℕ)
    (hd : s.data.dropWhile Char.isDigit = [])
    (hne : (s.data.takeWhile Char.isDigit).isEmpty = false)
    (hn : digitsNat (s.data.takeWhile Char.isDigit) = n) :
    jsParseFloat s = JSNum.num (n : ℚ) := by
  simp only [jsParseFloat, hd, hne, Bool.false_eq_true, if_false]
  rw [digitsVal_eq_cast, hn]

/-- The quantity regex on a well-formed decomposition: a block of
digit-or-dot characters, then whitespace, then a unit that starts with
neither and contains no newline; the greedy match returns exactly the
first block and the unit. -/
lemma jsMatchQuantity_decompose (numStr spStr unitStr : String)
    (h1 : ∀ c ∈ numStr.data, isDigitOrDot c = true)
    (h1n : numStr.data ≠ [])
    (h2 : ∀ c ∈ spStr.data, isWs c = true)
    (h3 : unitStr.data ≠ [])
    (h3h : ∀ c, unitStr.data.head? = some c → (isDigitOrDot c || isWs c) = false)
    (h3n : ∀ c ∈ unitStr.data, c ≠ '\n') :
    jsMatchQuantity ⟨numStr.data ++ spStr.data ++ unitStr.data⟩ = some (numStr, unitStr) := by
  have hhead : ∀ c, (spStr.data ++ unitStr.data).head? = some c → isDigitOrDot c = false := by
    intro c hc
    cases hsp : spStr.data with
    | nil =>
      rw [hsp, List.nil_append] at hc
      have := h3h c hc
      exact (Bool.or_eq_false_iff.mp this).1
    | cons a t =>
      rw [hsp] at hc
      simp only [List.cons_append, List.head?_cons, Option.some.injEq] at hc
      exact hc ▸ ws_not_digitOrDot (h2 a (by rw [hsp]; exact List.mem_cons_self a t))
  have hheadWs : ∀ c, unitStr.data.head? = some c → isWs c = false := by
    intro c hc
    exact (Bool.or_eq_false_iff.mp (h3h c hc)).2
  have htake : ((numStr.data ++ spStr.data) ++ unitStr.data).takeWhile isDigitOrDot
      = numStr.data := by
    rw [List.append_assoc]
    exact takeWhile_append_of_all h1 hhead
  have hdrop : ((numStr.data ++ spStr.data) ++ unitStr.data).drop numStr.data.length
      = spStr.data ++ unitStr.data := by
    rw [List.append_assoc]
    exact List.drop_left _ _
  have htk : ((numStr.data ++ spStr.data) ++ unitStr.data).take numStr.data.length
      = numStr.data := by
    rw [List.append_assoc]
    exact List.take_left _ _
  have hmr : matchRest (spStr.data ++ unitStr.data) = some unitStr.data := by
    have hdw : (spStr.data ++ unitStr.data).dropWhile isWs = unitStr.data :=
      dropWhile_append_of_all h2 hheadWs
    have hne : unitStr.data.isEmpty = false := by
      cases hud : unitStr.data with
      | nil => exact absurd hud h3
      | cons a t => rfl
    have hany : (unitStr.data.any fun c => c = '\n') = false := by
      rw [List.any_eq_false]
      intro c hc
      simpa using h3n c hc
    simp only [matchRest, hdw, hne, Bool.false_eq_true, if_false, hany]
  obtain ⟨k, hk⟩ : ∃ k, numStr.data.length = k + 1 := by
    cases hnd : numStr.data with
    | nil => exact absurd hnd h1n
    | cons a t => exact ⟨t.length, by simp [hnd]⟩
  have hdrop' : ((numStr.data ++ spStr.data) ++ unitStr.data).drop (k + 1)
      = spStr.data ++ unitStr.data := by rw [← hk]; exact hdrop
  have htk' : ((numStr.data ++ spStr.data) ++ unitStr.data).take (k + 1) = numStr.data := by
    rw [← hk]; exact htk
  show (tryK ((numStr.data ++ spStr.data) ++ unitStr.data)
      (((numStr.data ++ spStr.data) ++ unitStr.data).takeWhile isDigitOrDot).length).map
      (fun p => (⟨p.1⟩, ⟨p.2⟩)) = some (numStr, unitStr)
  rw [htake, hk]
  simp only [tryK, hdrop', hmr, htk']
  rfl

lemma mem_takeWhile_pred {p : Char → Bool} {l : List Char} {c : Char}
    (h : c ∈ l.takeWhile p) : p c = true := by
  induction l with
  | nil => simp [List.takeWhile] at h
  | cons a t ih =>
    rw [List.takeWhile_cons] at h
    by_cases hp : p a
    · rw [if_pos hp] at h
      rcases List.mem_cons.mp h with h | h
      · exact h ▸ hp
      · exact ih h
    · rw [if_neg hp] at h
      simp at h

lemma numberLit_chars {s : String} (h : isNumberLit s = true) :
    (∀ c ∈ s.data, isDigitOrDot c = true) ∧ s.data ≠ [] := by
  have hsplit : s.data.takeWhile Char.isDigit ++ s.data.dropWhile Char.isDigit = s.data :=
    List.takeWhile_append_dropWhile Char.isDigit s.data
  simp only [isNumberLit] at h
  split at h
  case h_1 heq =>
    rw [heq, List.append_nil] at hsplit
    constructor
    · intro c hc
      rw [← hsplit] at hc
      simp only [isDigitOrDot, Bool.or_eq_true]
      exact Or.inl (mem_takeWhile_pred hc)
    · intro hnil
      rw [hnil] at h
      simp at h
  case h_2 fs heq =>
    rw [heq] at hsplit
    rw [Bool.and_eq_true] at h
    constructor
    · intro c hc
      rw [← hsplit] at hc
      rcases List.mem_append.mp hc with hc | hc
      · simp only [isDigitOrDot, Bool.or_eq_true]
        exact Or.inl (mem_takeWhile_pred hc)
      · rcases List.mem_cons.mp hc with hc | hc
        · subst hc; rfl
        · simp only [isDigitOrDot, Bool.or_eq_true]
          exact Or.inl (by
            have := h.2
            rw [List.all_eq_true] at this
            exact this c hc)
    · intro hnil
      rw [hnil] at hsplit
      exact absurd hsplit (by simp)
  case h_3 => simp at h

lemma numberLit_parseFloat {s : String} (h : isNumberLit s = true) :
    jsParseFloat s = JSNum.num (decimalValue s) := by
  simp only [isNumberLit] at h
  split at h
  case h_1 heq =>
    have hne : (s.data.takeWhile Char.isDigit).isEmpty = false := by
      cases hq : (s.data.takeWhile Char.isDigit).isEmpty with
      | false => rfl
      | true => rw [hq] at h; simp at h
    simp only [jsParseFloat, decimalValue, heq, hne, Bool.false_eq_true, if_false]
  case h_2 fs heq =>
    rw [Bool.and_eq_true] at h
    have hfs : fs.takeWhile Char.isDigit = fs := by
      refine takeWhile_of_all ?_
      have := h.2
      rw [List.all_eq_true] at this
      exact this
    have hcond : ((s.data.takeWhile Char.isDigit).isEmpty && fs.isEmpty) = false := by
      have h1 := h.1
      rw [Bool.or_eq_true] at h1
      rcases h1 with h1 | h1
      · rw [Bool.not_eq_true'] at h1
        rw [h1]
        rfl
      · rw [Bool.not_eq_true'] at h1
        rw [h1]
        simp
    simp only [jsParseFloat, decimalValue, heq, hfs, hcond, Bool.false_eq_true, if_false]
  case h_3 => simp at h

/-- C8: `parseQuantity` is total (it is a function in this model and
raises nothing); on a well-formed string made of a number, optional
spaces and a unit it returns the numeric value of the prefix and the
trimmed unit; on a string with no numeric prefix it returns value 1 and
the whole string as the unit. -/
theorem parseQuantity_spec :
    (∀ numStr spStr unitStr : String,
      isNumberLit numStr = true →
      (∀ c ∈ spStr.data, c = ' ') →
      unitStr.data ≠ [] →
      (∀ c, unitStr.data.head? = some c → (isDigitOrDot c || isWs c) = false) →
      (∀ c ∈ unitStr.data, c ≠ '\n') →
      parseQuantity ⟨numStr.data ++ spStr.data ++ unitStr.data⟩
        = ⟨JSNum.num (decimalValue numStr), jsTrim unitStr⟩)
    ∧ (∀ s : String, noNumericStart s = true → parseQuantity s = ⟨JSNum.num 1, s⟩)
    ∧ parseQuantity "500g" = ⟨JSNum.num 500, "g"⟩
    ∧ parseQuantity "2 tbsp" = ⟨JSNum.num 2, "tbsp"⟩ := by
  refine ⟨?_, ?_, ?_, ?_⟩
  · intro numStr spStr unitStr hnum hsp hne hhead hnl
    obtain ⟨hchars, hnonempty⟩ := numberLit_chars hnum
    have hdec := jsMatchQuantity_decompose numStr spStr unitStr hchars hnonempty
      (fun c hc => by rw [hsp c hc]; rfl) hne hhead hnl
    simp only [parseQuantity, hdec]
    rw [numberLit_parseFloat hnum]
  · intro s hs
    have hm : jsMatchQuantity s = none := by
      cases hsd : s.data with
      | nil => simp [jsMatchQuantity, hsd, List.takeWhile, tryK]
      | cons c t =>
        simp only [noNumericStart, hsd] at hs
        rw [Bool.not_eq_true'] at hs
        simp [jsMatchQuantity, hsd, List.takeWhile_cons, hs, tryK]
    simp [parseQuantity, hm]
  · have hm : jsMatchQuantity "500g" = some ("500", "g") := by decide
    have hp : jsParseFloat "500" = JSNum.num ((500 : ℕ) : ℚ) :=
      jsParseFloat_int_eval "500" 500 (by decide) (by decide) (by decide)
    have ht : jsTrim "g" = "g" := by decide
    simp only [parseQuantity, hm, hp, ht]
    norm_num
  · have hm : jsMatchQuantity "2 tbsp" = some ("2", "tbsp") := by decide
    have hp : jsParseFloat "2" = JSNum.num ((2 : ℕ) : ℚ) :=
      jsParseFloat_int_eval "2" 2 (by decide) (by decide) (by decide)
    have ht : jsTrim "tbsp" = "tbsp" := by decide
    simp only [parseQuantity, hm, hp, ht]
    norm_num

/-- Witness for C8 at a concrete well-formed input: "0.5 cups " parses to
value one half and trimmed unit "cups". -/
theorem parseQuantity_spec_witness :
    parseQuantity "0.5 cups " = ⟨JSNum.num (1 / 2), "cups"⟩ := by
  have h := parseQuantity_spec.1 "0.5" " " "cups " (by decide) (by decide) (by decide)
    (by
      intro c hc
      have : c = 'c' := by
        simpa using hc.symm
      subst this
      decide)
    (by decide)
  have e1 : (⟨"0.5".data ++ " ".data ++ "cups ".data⟩ : String) = "0.5 cups " := by decide
  rw [e1] at h
  rw [h]
  have e2 : decimalValue "0.5" = 1 / 2 := by
    have hdw : "0.5".data.dropWhile Char.isDigit = ['.', '5'] := by decide
    have htw : "0.5".data.takeWhile Char.isDigit = ['0'] := by decide
    have hf : ['5'].takeWhile Char.isDigit = ['5'] := by decide
    simp only [decimalValue, hdw, htw, hf, fracVal, digitsVal_eq_cast,
      List.length_singleton]
    have hd0 : digitsNat ['0'] = 0 := by decide
    have hd5 : digitsNat ['5'] = 5 := by decide
    rw [hd0, hd5]
    norm_num
  have e3 : jsTrim "cups " = "cups" := by decide
  rw [e2, e3]

/-- C10: on an input of two or more digit-or-dot characters (no unit
part) the greedy first group backtracks by one: the last character is
returned as the unit and the preceding characters are run through
`parseFloat` as the value; in particular "500" gives value 50 with unit
"0" and "0.5" gives value 0 with unit "5", not the failure shape. -/
theorem parseQuantity_digits_backtrack :
    (∀ s : String, (∀ c ∈ s.data, isDigitOrDot c = true) → 2 ≤ s.data.length →
      parseQuantity s = ⟨jsParseFloat ⟨s.data.dropLast⟩, lastCharStr s⟩
      ∧ lastCharStr s ≠ s)
    ∧ parseQuantity "500" = ⟨JSNum.num 50, "0"⟩
    ∧ parseQuantity "0.5" = ⟨JSNum.num 0, "5"⟩ := by
  refine ⟨?_, ?_, ?_⟩
  · intro s hall hlen
    obtain ⟨cs⟩ := s
    rcases List.eq_nil_or_concat cs with rfl | ⟨ys, a, rfl⟩
    · simp at hlen
    · rw [List.concat_eq_append] at hall hlen ⊢
      have ha : isDigitOrDot a = true := hall a (by simp)
      have haws : isWs a = false := digitOrDot_not_ws ha
      have hanl : a ≠ '\n' := digitOrDot_ne_newline ha
      obtain ⟨k, hk⟩ : ∃ k, ys.length = k + 1 := by
        refine ⟨ys.length - 1, ?_⟩
        have : 2 ≤ ys.length + 1 := by simpa using hlen
        omega
      have htake : (ys ++ [a]).takeWhile isDigitOrDot = ys ++ [a] :=
        takeWhile_of_all (by simpa using hall)
      have hlen2 : (ys ++ [a]).length = k + 2 := by simp [hk]
      have hd1 : (ys ++ [a]).drop (k + 2) = [] :=
        List.drop_eq_nil_of_le (by rw [hlen2])
      have hd2 : (ys ++ [a]).drop (k + 1) = [a] := by
        rw [← hk]
        exact List.drop_left ys [a]
      have ht2 : (ys ++ [a]).take (k + 1) = ys := by
        rw [← hk]
        exact List.take_left ys [a]
      have hmr2 : matchRest [a] = some [a] := by
        simp [matchRest, List.dropWhile, haws, hanl]
      have hmatch : jsMatchQuantity ⟨ys ++ [a]⟩ = some (⟨ys⟩, ⟨[a]⟩) := by
        show (tryK (ys ++ [a]) ((ys ++ [a]).takeWhile isDigitOrDot).length).map
          (fun p => (String.mk p.1, String.mk p.2)) = some (⟨ys⟩, ⟨[a]⟩)
        rw [htake, hlen2]
        have hmrnil : matchRest ([] : List Char) = none := rfl
        simp only [tryK, hd1, hmrnil, hd2, hmr2, ht2]
        rfl
      have htrim : jsTrim ⟨[a]⟩ = ⟨[a]⟩ := by
        simp [jsTrim, List.dropWhile, haws]
      have hlast : lastCharStr ⟨ys ++ [a]⟩ = ⟨[a]⟩ := by
        simp only [lastCharStr]
        have : (ys ++ [a]).length - 1 = ys.length := by simp
        rw [this]
        rw [List.drop_left ys [a]]
      have hdl : (ys ++ [a]).dropLast = ys := List.dropLast_concat
      constructor
      · show parseQuantity ⟨ys ++ [a]⟩ = _
        simp only [parseQuantity, hmatch, htrim, hlast]
        show Quantity.mk (jsParseFloat ⟨ys⟩) ⟨[a]⟩
          = Quantity.mk (jsParseFloat ⟨(ys ++ [a]).dropLast⟩) ⟨[a]⟩
        rw [hdl]
      · rw [hlast]
        intro heq
        have := congrArg String.data heq
        simp only at this
        have := congrArg List.length this
        simp [hk] at this
  · have hm : jsMatchQuantity "500" = some ("50", "0") := by decide
    have hp : jsParseFloat "50" = JSNum.num ((50 : ℕ) : ℚ) :=
      jsParseFloat_int_eval "50" 50 (by decide) (by decide) (by decide)
    have ht : jsTrim "0" = "0" := by decide
    simp only [parseQuantity, hm, hp, ht]
    norm_num
  · have hm : jsMatchQuantity "0.5" = some ("0.", "5") := by decide
    have hdw : "0.".data.dropWhile Char.isDigit = ['.'] := by decide
    have htw : "0.".data.takeWhile Char.isDigit = ['0'] := by decide
    have hp : jsParseFloat "0." = JSNum.num 0 := by
      simp only [jsParseFloat, hdw, htw, List.takeWhile_nil, List.isEmpty_nil,
        List.isEmpty_cons, Bool.false_and, Bool.false_eq_true, if_false]
      have hd0 : digitsNat ['0'] = 0 := by decide
      rw [digitsVal_eq_cast, hd0]
      have hdnil : digitsNat ([] : List Char) = 0 := rfl
      simp [fracVal, digitsVal_eq_cast, hdnil]
    have ht : jsTrim "5" = "5" := by decide
    simp only [parseQuantity, hm, hp, ht]

/-- Witness for C10: the theorem applied to "500". -/
theorem parseQuantity_digits_backtrack_witness :
    parseQuantity "500" = ⟨jsParseFloat ⟨"500".data.dropLast⟩, lastCharStr "500"⟩
    ∧ lastCharStr "500" ≠ "500" :=
  parseQuantity_digits_backtrack.1 "500" (by decide) (by decide)

/-! ### Resolver lemmas (shared by several claims) -/

lemma resolver_static_hit (env : Env) (st : CacheMap PkgSP) (now : ℤ) (name : String)
    (p : PkgSP) (hp : packageSizesLookup (normalizeName name) = some p) :
    getPackageInfo env st now name = (⟨p.size, p.price, "hardcoded database"⟩, st) := by
  simp only [getPackageInfo, hp]

lemma resolver_cache_hit (env : Env) (st : CacheMap PkgSP) (now : ℤ) (name : String)
    (v : PkgSP) (e : ℤ)
    (hstatic : packageSizesLookup (normalizeName name) = none)
    (hfind : mapFind st (normalizeName name) = some (v, e)) (hle : now ≤ e) :
    getPackageInfo env st now name = (⟨v.size, v.price, "package cache"⟩, st) := by
  have hget : SimpleCache.get st (normalizeName name) now = (some v, st) := by
    simp only [SimpleCache.get, hfind]
    rw [if_neg (not_lt.mpr hle)]
  simp only [getPackageInfo, hstatic, hget]

lemma resolver_remote_found (env : Env) (st : CacheMap PkgSP) (now : ℤ) (name : String)
    (size : String) (pOpt : Option JSNum)
    (hstatic : packageSizesLookup (normalizeName name) = none)
    (hfind : mapFind st (normalizeName name) = none)
    (hk : env.hasApiKey = true)
    (hpf : priceInfoFalsy (env.priceCache (normalizeName name)) = true)
    (hr : env.remote (normalizeName name) = RemoteOutcome.found size pOpt) :
    getPackageInfo env st now name
      = (⟨size, remotePrice pOpt (env.priceCache (normalizeName name)), "spoonacular API"⟩,
         SimpleCache.set pkgTtl st (normalizeName name)
           ⟨size, remotePrice pOpt (env.priceCache (normalizeName name))⟩ now) := by
  have hget : SimpleCache.get st (normalizeName name) now = (none, st) := by
    simp only [SimpleCache.get, hfind]
  simp only [getPackageInfo, hstatic, hget, hk, hpf, hr, Bool.and_self, if_true]

lemma resolver_estimate (env : Env) (st : CacheMap PkgSP) (now : ℤ) (name : String)
    (hstatic : packageSizesLookup (normalizeName name) = none)
    (hfind : mapFind st (normalizeName name) = none)
    (hmiss : env.hasApiKey = false
      ∨ priceInfoFalsy (env.priceCache (normalizeName name)) = false
      ∨ env.remote (normalizeName name) = RemoteOutcome.miss) :
    getPackageInfo env st now name
      = (⟨(estimatePackageInfo (normalizeName name)).size,
          (estimatePackageInfo (normalizeName name)).price, "estimated"⟩,
         SimpleCache.set pkgTtl st (normalizeName name)
           (estimatePackageInfo (normalizeName name)) now) := by
  have hget : SimpleCache.get st (normalizeName name) now = (none, st) := by
    simp only [SimpleCache.get, hfind]
  rcases hmiss with h | h | h
  · simp only [getPackageInfo, hstatic, hget, h, Bool.false_and, Bool.false_eq_true, if_false]
  · simp only [getPackageInfo, hstatic, hget, h, Bool.and_false, Bool.false_eq_true, if_false]
  · cases hk : env.hasApiKey with
    | false => simp only [getPackageInfo, hstatic, hget, hk, Bool.false_and,
        Bool.false_eq_true, if_false]
    | true =>
      cases hpf : priceInfoFalsy (env.priceCache (normalizeName name)) with
      | false => simp only [getPackageInfo, hstatic, hget, hk, hpf, Bool.and_false,
          Bool.false_eq_true, if_false]
      | true => simp only [getPackageInfo, hstatic, hget, hk, hpf, h, Bool.and_self, if_true]

lemma resolver_remote_throws (env : Env) (st : CacheMap PkgSP) (now : ℤ) (name : String)
    (hstatic : packageSizesLookup (normalizeName name) = none)
    (hfind : mapFind st (normalizeName name) = none)
    (hk : env.hasApiKey = true)
    (hpf : priceInfoFalsy (env.priceCache (normalizeName name)) = true)
    (hr : env.remote (normalizeName name) = RemoteOutcome.throws) :
    getPackageInfo env st now name
      = (⟨(estimatePackageInfo (normalizeName name)).size,
          (estimatePackageInfo (normalizeName name)).price, "estimated (after error)"⟩, st) := by
  have hget : SimpleCache.get st (normalizeName name) now = (none, st) := by
    simp only [SimpleCache.get, hfind]
  simp only [getPackageInfo, hstatic, hget, hk, hpf, hr, Bool.and_self, if_true]

/-! ### C1: resolution order -/

/-- C1: `getPackageInfo` keys every lookup on the lower-cased, trimmed
name (two names with equal normal forms resolve identically), and the
four tiers are consulted in order with the first hit winning: a static
hit returns at once with the "hardcoded database" tag and no cache or
remote access; otherwise a live cache entry is returned with the
"package cache" tag; otherwise a remote success is returned (and
cached); otherwise the category estimate is returned (and cached).  Each
conjunct holds for every environment, so a hit in an earlier tier is
independent of everything a later tier could do. -/
theorem getPackageInfo_tier_order (env : Env) (st : CacheMap PkgSP) (now : ℤ)
    (name : String) :
    (∀ name₂ : String, normalizeName name = normalizeName name₂ →
      getPackageInfo env st now name = getPackageInfo env st now name₂)
    ∧ (∀ p : PkgSP, packageSizesLookup (normalizeName name) = some p →
      getPackageInfo env st now name = (⟨p.size, p.price, "hardcoded database"⟩, st))
    ∧ (packageSizesLookup (normalizeName name) = none →
      ∀ (v : PkgSP) (e : ℤ), mapFind st (normalizeName name) = some (v, e) → now ≤ e →
      getPackageInfo env st now name = (⟨v.size, v.price, "package cache"⟩, st))
    ∧ (packageSizesLookup (normalizeName name) = none →
      mapFind st (normalizeName name) = none →
      env.hasApiKey = true →
      priceInfoFalsy (env.priceCache (normalizeName name)) = true →
      ∀ (size : String) (pOpt : Option JSNum),
        env.remote (normalizeName name) = RemoteOutcome.found size pOpt →
      getPackageInfo env st now name
        = (⟨size, remotePrice pOpt (env.priceCache (normalizeName name)), "spoonacular API"⟩,
           SimpleCache.set pkgTtl st (normalizeName name)
             ⟨size, remotePrice pOpt (env.priceCache (normalizeName name))⟩ now))
    ∧ (packageSizesLookup (normalizeName name) = none →
      mapFind st (normalizeName name) = none →
      (env.hasApiKey = false ∨ priceInfoFalsy (env.priceCache (normalizeName name)) = false
        ∨ env.remote (normalizeName name) = RemoteOutcome.miss) →
      getPackageInfo env st now name
        = (⟨(estimatePackageInfo (normalizeName name)).size,
            (estimatePackageInfo (normalizeName name)).price, "estimated"⟩,
           SimpleCache.set pkgTtl st (normalizeName name)
             (estimatePackageInfo (normalizeName name)) now)) := by
  refine ⟨?_, ?_, ?_, ?_, ?_⟩
  · intro name₂ h
    simp only [getPackageInfo, h]
  · intro p hp
    exact resolver_static_hit env st now name p hp
  · intro h0 v e hfind hle
    exact resolver_cache_hit env st now name v e h0 hfind hle
  · intro h0 h1 hk hpf size pOpt hr
    exact resolver_remote_found env st now name size pOpt h0 h1 hk hpf hr
  · intro h0 h1 hmiss
    exact resolver_estimate env st now name h0 h1 hmiss

/-- Witness for C1: "  Chicken Breast " normalizes to "chicken breast",
which hits the static table regardless of cache and environment. -/
theorem getPackageInfo_tier_order_witness :
    getPackageInfo envThrows [] 0 "  Chicken Breast "
      = (⟨"500g", JSNum.num (599 / 100), "hardcoded database"⟩, []) := by
  have h := (getPackageInfo_tier_order envThrows [] 0 "  Chicken Breast ").2.1
    ⟨"500g", JSNum.num (599 / 100)⟩ rfl
  exact h

/-! ### C6: remote errors are caught and tagged -/

/-- C6: when the static table and the cache miss and the remote tier
throws, `getPackageInfo` still returns (the model is a total function
mirroring the catch block): the result is the category estimate for the
normalized name, carrying the tag "estimated (after error)", which is
distinct from the plain "estimated" tag of an ordinary lookup miss. -/
theorem getPackageInfo_remote_error_caught (env : Env) (st : CacheMap PkgSP) (now : ℤ)
    (name : String)
    (hstatic : packageSizesLookup (normalizeName name) = none)
    (hfind : mapFind st (normalizeName name) = none)
    (hk : env.hasApiKey = true)
    (hpf : priceInfoFalsy (env.priceCache (normalizeName name)) = true)
    (hr : env.remote (normalizeName name) = RemoteOutcome.throws) :
    getPackageInfo env st now name
      = (⟨(estimatePackageInfo (normalizeName name)).size,
          (estimatePackageInfo (normalizeName name)).price, "estimated (after error)"⟩, st)
    ∧ ("estimated (after error)" : String) ≠ "estimated" :=
  ⟨resolver_remote_throws env st now name hstatic hfind hk hpf hr, by decide⟩

/-- Witness for C6: the always-throwing environment on the unknown
ingredient "zzz" returns the default estimate with the error tag. -/
theorem getPackageInfo_remote_error_caught_witness :
    getPackageInfo envThrows [] 0 "zzz"
      = (⟨"250g", JSNum.num (349 / 100), "estimated (after error)"⟩, []) := by
  have h := (getPackageInfo_remote_error_caught envThrows [] 0 "zzz"
    rfl rfl rfl rfl rfl).1
  exact h

/-! ### C4: idempotence after the first call -/

/-- Counterexample to C4 as stated: with a throwing remote, the first
call for "zzz" returns an error-tagged estimate and caches nothing, so
the second call repeats the whole resolution and again returns the
"estimated (after error)" tag — not a "package cache"-tagged
descriptor as the claim demands. -/
theorem getPackageInfo_error_uncached_cex :
    (getPackageInfo envThrows ((getPackageInfo envThrows [] 0 "zzz").2) 1 "zzz").1.source
      = "estimated (after error)"
    ∧ (getPackageInfo envThrows [] 0 "zzz").2 = ([] : CacheMap PkgSP)
    ∧ ("estimated (after error)" : String) ≠ "package cache" :=
  ⟨rfl, rfl, by decide⟩

/-- C4 (amended): for a name outside the static table and absent from the
cache, when the first call does not take the remote-error path (so it
ends in a remote success or an ordinary estimate, both of which are
cached), a second call within the cache TTL — under any environment —
returns a "package cache"-tagged descriptor with the same size and price
as the first result, leaving the cache unchanged.  Error-path estimates
are not cached, so the claim fails for them. -/
theorem getPackageInfo_idempotent_after_success (env env₂ : Env) (st : CacheMap PkgSP)
    (t0 t1 : ℤ) (name : String)
    (hstatic : packageSizesLookup (normalizeName name) = none)
    (hfind : mapFind st (normalizeName name) = none)
    (hnoerr : ¬(env.hasApiKey = true
      ∧ priceInfoFalsy (env.priceCache (normalizeName name)) = true
      ∧ env.remote (normalizeName name) = RemoteOutcome.throws))
    (ht : t1 ≤ t0 + pkgTtl) :
    getPackageInfo env₂ ((getPackageInfo env st t0 name).2) t1 name
      = (⟨(getPackageInfo env st t0 name).1.size, (getPackageInfo env st t0 name).1.price,
          "package cache"⟩,
         (getPackageInfo env st t0 name).2) := by
  have hsecond : ∀ v : PkgSP,
      getPackageInfo env₂ (SimpleCache.set pkgTtl st (normalizeName name) v t0) t1 name
        = (⟨v.size, v.price, "package cache"⟩,
           SimpleCache.set pkgTtl st (normalizeName name) v t0) := by
    intro v
    exact resolver_cache_hit env₂ _ t1 name v (t0 + pkgTtl) hstatic
      (mapFind_mapSet st (normalizeName name) (v, t0 + pkgTtl)) ht
  cases hk : env.hasApiKey with
  | false =>
    have h1 := resolver_estimate env st t0 name hstatic hfind (Or.inl hk)
    rw [h1]
    exact hsecond _
  | true =>
    cases hpf : priceInfoFalsy (env.priceCache (normalizeName name)) with
    | false =>
      have h1 := resolver_estimate env st t0 name hstatic hfind (Or.inr (Or.inl hpf))
      rw [h1]
      exact hsecond _
    | true =>
      cases hr : env.remote (normalizeName name) with
      | throws => exact absurd ⟨hk, hpf, hr⟩ hnoerr
      | miss =>
        have h1 := resolver_estimate env st t0 name hstatic hfind (Or.inr (Or.inr hr))
        rw [h1]
        exact hsecond _
      | found size pOpt =>
        have h1 := resolver_remote_found env st t0 name size pOpt hstatic hfind hk hpf hr
        rw [h1]
        exact hsecond _

/-- Witness for C4 (amended): first call without an API key caches the
default estimate for "zzz"; a second call five milliseconds later under a
different (throwing) environment returns it from the cache. -/
theorem getPackageInfo_idempotent_after_success_witness :
    getPackageInfo envThrows ((getPackageInfo envPlain [] 0 "zzz").2) 5 "zzz"
      = (⟨"250g", JSNum.num (349 / 100), "package cache"⟩,
         (getPackageInfo envPlain [] 0 "zzz").2) := by
  have h := getPackageInfo_idempotent_after_success envPlain envThrows [] 0 5 "zzz"
    rfl rfl (by simp [envPlain]) (by decide)
  exact h

/-! ### C7: count-recipe against weight-package -/

/-- Counterexample to C7 as stated: "2 pack" is classified as a count and
"500g" as a weight, but `convertUnit` has no rule for the unit "pack", so
the raw count 2 is divided by 500 grams giving `percentUsed = 1/250` —
not the ingredient-aware piece conversion (100 g default per piece) the
claim describes, which would give `(2 * 100) / 500 = 2/5`. -/
theorem calculatePackageUsage_count_noop_cex :
    (calculatePackageUsage ⟨"onion", "2 pack"⟩
      ⟨"500g", JSNum.num 2, "hardcoded database"⟩).percentUsed = JSNum.num (1 / 250)
    ∧ jsDiv (jsMul (JSNum.num 2) (JSNum.num (gramsPerPiece "onion"))) (JSNum.num 500)
      = JSNum.num (2 / 5)
    ∧ JSNum.num (1 / 250) ≠ JSNum.num (2 / 5) := by
  refine ⟨?_, ?_, ?_⟩
  · have hm : jsMatchQuantity "2 pack" = some ("2", "pack") := by decide
    have hp : jsParseFloat "2" = JSNum.num ((2 : ℕ) : ℚ) :=
      jsParseFloat_int_eval "2" 2 (by decide) (by decide) (by decide)
    have ht : jsTrim "pack" = "pack" := by decide
    have hrq : parseQuantity "2 pack" = ⟨JSNum.num ((2 : ℕ) : ℚ), "pack"⟩ := by
      simp only [parseQuantity, hm, hp, ht]
    have hm2 : jsMatchQuantity "500g" = some ("500", "g") := by decide
    have hp2 : jsParseFloat "500" = JSNum.num ((500 : ℕ) : ℚ) :=
      jsParseFloat_int_eval "500" 500 (by decide) (by decide) (by decide)
    have ht2 : jsTrim "g" = "g" := by decide
    have hpq : parseQuantity "500g" = ⟨JSNum.num ((500 : ℕ) : ℚ), "g"⟩ := by
      simp only [parseQuantity, hm2, hp2, ht2]
    show jsMin1 (rawPercentUsed ⟨"onion", "2 pack"⟩
      ⟨"500g", JSNum.num 2, "hardcoded database"⟩) = JSNum.num (1 / 250)
    have f1 : unitIsWeight "pack" = false := by decide
    have f2 : unitIsVolume "pack" = false := by decide
    have f3 : unitIsCount "pack" = true := by decide
    have f4 : unitIsWeight "g" = true := by decide
    have f5 : unitIsVolume "g" = false := by decide
    have f6 : unitIsCount "g" = false := by decide
    have hraw : rawPercentUsed ⟨"onion", "2 pack"⟩
        ⟨"500g", JSNum.num 2, "hardcoded database"⟩
        = jsDiv (convertUnit (JSNum.num ((2 : ℕ) : ℚ)) "pack" "g" "onion")
            (convertUnit (JSNum.num ((500 : ℕ) : ℚ)) "g" "g" "onion") := by
      simp only [rawPercentUsed, hrq, hpq, f1, f2, f3, f4, f5, f6, Bool.false_and,
        Bool.and_false, Bool.and_self, Bool.false_eq_true, if_false, if_true]
    rw [hraw]
    have hc1 : convertUnit (JSNum.num ((2 : ℕ) : ℚ)) "pack" "g" "onion"
        = JSNum.num ((2 : ℕ) : ℚ) := by
      simp [convertUnit]
    have hc2 : convertUnit (JSNum.num ((500 : ℕ) : ℚ)) "g" "g" "onion"
        = JSNum.num ((500 : ℕ) : ℚ) := by
      simp [convertUnit]
    rw [hc1, hc2]
    simp only [jsDiv, jsMin1]
    norm_num
  · have hg : gramsPerPiece "onion" = 100 := by simp [gramsPerPiece]
    rw [hg]
    simp only [jsMul, jsDiv]
    norm_num
  · intro h
    rw [JSNum.num.injEq] at h
    norm_num at h

/-- C7 (amended): in the count-recipe/weight-package cross branch the
ingredient-aware piece conversion applies only when the parsed recipe
unit is exactly the string "piece"; for every other count-classified
unit `convertUnit` finds no rule and returns the count unchanged, which
is then divided by the package amount in grams. -/
theorem calculatePackageUsage_count_weight (ingredient : Ingredient) (packageInfo : PkgInfo)
    (hc : unitIsCount (parseQuantity ingredient.quantity).unit = true)
    (hw : unitIsWeight (parseQuantity ingredient.quantity).unit = false)
    (hpw : unitIsWeight (parseQuantity packageInfo.size).unit = true)
    (hpc : unitIsCount (parseQuantity packageInfo.size).unit = false)
    (hv : unitIsVolume (parseQuantity ingredient.quantity).unit = false
      ∨ unitIsVolume (parseQuantity packageInfo.size).unit = false) :
    ((parseQuantity ingredient.quantity).unit = "piece" →
      (calculatePackageUsage ingredient packageInfo).percentUsed
        = jsMin1 (jsDiv
            (jsMul (jsMul (parseQuantity ingredient.quantity).value
              (JSNum.num (gramsPerPiece ingredient.name))) (JSNum.num 1))
            (convertUnit (parseQuantity packageInfo.size).value
              (parseQuantity packageInfo.size).unit "g" ingredient.name)))
    ∧ ((parseQuantity ingredient.quantity).unit ≠ "piece" →
      (calculatePackageUsage ingredient packageInfo).percentUsed
        = jsMin1 (jsDiv (parseQuantity ingredient.quantity).value
            (convertUnit (parseQuantity packageInfo.size).value
              (parseQuantity packageInfo.size).unit "g" ingredient.name))) := by
  have hbranch : rawPercentUsed ingredient packageInfo
      = jsDiv (convertUnit (parseQuantity ingredient.quantity).value
          (parseQuantity ingredient.quantity).unit "g" ingredient.name)
        (convertUnit (parseQuantity packageInfo.size).value
          (parseQuantity packageInfo.size).unit "g" ingredient.name) := by
    rcases hv with hv | hv
    · simp only [rawPercentUsed, hw, hv, hpc, hc, hpw, Bool.false_and, Bool.and_false,
        Bool.and_self, Bool.false_eq_true, if_false, if_true]
    · simp only [rawPercentUsed, hw, hv, hpc, hc, hpw, Bool.false_and, Bool.and_false,
        Bool.and_self, Bool.false_eq_true, if_false, if_true]
  constructor
  · intro hpiece
    show jsMin1 (rawPercentUsed ingredient packageInfo) = _
    rw [hbranch, hpiece]
    have hcv : convertUnit (parseQuantity ingredient.quantity).value "piece" "g"
        ingredient.name
        = jsMul (jsMul (parseQuantity ingredient.quantity).value
            (JSNum.num (gramsPerPiece ingredient.name))) (JSNum.num 1) := by
      simp [convertUnit]
    rw [hcv]
  · intro hpiece
    have hng : (parseQuantity ingredient.quantity).unit ≠ "g" := by
      intro he; rw [he] at hw; exact absurd hw (by decide)
    have hnkg : (parseQuantity ingredient.quantity).unit ≠ "kg" := by
      intro he; rw [he] at hw; exact absurd hw (by decide)
    have hnbulb : (parseQuantity ingredient.quantity).unit ≠ "bulb" := by
      intro he; rw [he] at hc; exact absurd hc (by decide)
    have hcv : convertUnit (parseQuantity ingredient.quantity).value
        (parseQuantity ingredient.quantity).unit "g" ingredient.name
        = (parseQuantity ingredient.quantity).value := by
      simp [convertUnit, hng, hnkg, hpiece, hnbulb]
    show jsMin1 (rawPercentUsed ingredient packageInfo) = _
    rw [hbranch, hcv]

/-- Witness for C7 (amended): "2 piece" of lemon against a 500 g package
goes through the piece table (lemon: 100 g per piece) and yields
`percentUsed = 200 / 500 = 2/5`. -/
theorem calculatePackageUsage_count_weight_witness :
    (calculatePackageUsage ⟨"lemon", "2 piece"⟩
      ⟨"500g", JSNum.num 5, "estimated"⟩).percentUsed = JSNum.num (2 / 5) := by
  have h := calculatePackageUsage_count_weight ⟨"lemon", "2 piece"⟩
    ⟨"500g", JSNum.num 5, "estimated"⟩ (by decide) (by decide) (by decide) (by decide)
    (Or.inl (by decide))
  rw [h.1 (by decide)]
  have hm : jsMatchQuantity "2 piece" = some ("2", "piece") := by decide
  have hp : jsParseFloat "2" = JSNum.num ((2 : ℕ) : ℚ) :=
    jsParseFloat_int_eval "2" 2 (by decide) (by decide) (by decide)
  have ht : jsTrim "piece" = "piece" := by decide
  have hrq : parseQuantity "2 piece" = ⟨JSNum.num ((2 : ℕ) : ℚ), "piece"⟩ := by
    simp only [parseQuantity, hm, hp, ht]
  have hm2 : jsMatchQuantity "500g" = some ("500", "g") := by decide
  have hp2 : jsParseFloat "500" = JSNum.num ((500 : ℕ) : ℚ) :=
    jsParseFloat_int_eval "500" 500 (by decide) (by decide) (by decide)
  have ht2 : jsTrim "g" = "g" := by decide
  have hpq : parseQuantity "500g" = ⟨JSNum.num ((500 : ℕ) : ℚ), "g"⟩ := by
    simp only [parseQuantity, hm2, hp2, ht2]
  dsimp only
  rw [hrq, hpq]
  have hgrams : gramsPerPiece "lemon" = 100 := by
    simp [gramsPerPiece]
  have hcv : convertUnit (JSNum.num ((500 : ℕ) : ℚ)) "g" "g" "lemon"
      = JSNum.num ((500 : ℕ) : ℚ) := by simp [convertUnit]
  dsimp only
  rw [hgrams, hcv]
  simp only [jsMul, jsDiv, jsMin1]
  norm_num

/-! ### C9: the shopping summary totals -/

lemma shoppingItems_spec (env : Env) (now : ℤ) :
    ∀ (ings : List Ingredient) (st : CacheMap PkgSP),
      ∀ it ∈ (shoppingItems env now ings st).1,
        it.costInRecipe = jsMul it.packagePrice it.percentUsed
        ∧ (inUnitB it.percentUsed = true ∨ it.percentUsed = JSNum.nan) := by
  intro ings
  induction ings with
  | nil =>
    intro st it hit
    simp [shoppingItems] at hit
  | cons ing rest ih =>
    intro st it hit
    simp only [shoppingItems] at hit
    rcases List.mem_cons.mp hit with h | h
    · subst h
      exact ⟨(usage_spec ing _).1, (usage_spec ing _).2⟩
    · exact ih _ it h

lemma foldl_price_cost :
    ∀ l : List CostedIngredient,
      (∀ it ∈ l, ∃ p c : ℚ, it.packagePrice = JSNum.num p ∧ it.costInRecipe = JSNum.num c
        ∧ 0 ≤ c ∧ c ≤ p) →
      ∀ a b : ℚ, b ≤ a →
        ∃ s t : ℚ,
          l.foldl (fun sum item => jsAdd sum item.packagePrice) (JSNum.num a) = JSNum.num s
          ∧ l.foldl (fun sum item => jsAdd sum item.costInRecipe) (JSNum.num b) = JSNum.num t
          ∧ t ≤ s := by
  intro l
  induction l with
  | nil =>
    intro _ a b hba
    exact ⟨a, b, rfl, rfl, hba⟩
  | cons it rest ih =>
    intro h a b hba
    obtain ⟨p, c, hp, hc, hc0, hcp⟩ := h it (List.mem_cons_self it rest)
    simp only [List.foldl_cons, hp, hc]
    have e1 : jsAdd (JSNum.num a) (JSNum.num p) = JSNum.num (a + p) := rfl
    have e2 : jsAdd (JSNum.num b) (JSNum.num c) = JSNum.num (b + c) := rfl
    rw [e1, e2]
    exact ih (fun x hx => h x (List.mem_cons_of_mem it hx)) (a + p) (b + c) (by linarith)

/-- C9 (amended): the summary's `leftoverValue` is definitionally
`totalPackagePrice - totalRecipeCost`; and whenever every per-ingredient
`packagePrice` in the summary is a nonnegative rational and no
`percentUsed` is NaN (NaN arises from degenerate quantity strings), the
leftover value is a nonnegative rational.  Without those provisos the
claim fails: a NaN percentage poisons the totals. -/
theorem calculateShoppingCost_leftover (env : Env) (st : CacheMap PkgSP) (now : ℤ)
    (ingredients : List Ingredient) :
    (calculateShoppingCost env st now ingredients).1.leftoverValue
      = jsSub (calculateShoppingCost env st now ingredients).1.totalPackagePrice
          (calculateShoppingCost env st now ingredients).1.totalRecipeCost
    ∧ ((∀ it ∈ (calculateShoppingCost env st now ingredients).1.ingredients,
          (∃ p : ℚ, it.packagePrice = JSNum.num p ∧ 0 ≤ p) ∧ it.percentUsed ≠ JSNum.nan) →
        ∃ l : ℚ, (calculateShoppingCost env st now ingredients).1.leftoverValue = JSNum.num l
          ∧ 0 ≤ l) := by
  constructor
  · rfl
  · intro hyp
    have hitems : (calculateShoppingCost env st now ingredients).1.ingredients
        = (shoppingItems env now ingredients st).1 := rfl
    have hfold : ∀ it ∈ (shoppingItems env now ingredients st).1,
        ∃ p c : ℚ, it.packagePrice = JSNum.num p ∧ it.costInRecipe = JSNum.num c
          ∧ 0 ≤ c ∧ c ≤ p := by
      intro it hit
      obtain ⟨⟨p, hp, hp0⟩, hnn⟩ := hyp it (by rw [hitems]; exact hit)
      obtain ⟨hcost, hunit⟩ := shoppingItems_spec env now ingredients st it hit
      rcases hunit with hu | hu
      · obtain ⟨q, hq, hq0, hq1⟩ := inUnitB_elim hu
        refine ⟨p, p * q, hp, ?_, mul_nonneg hp0 hq0, mul_le_of_le_one_right hp0 hq1⟩
        rw [hcost, hp, hq]
        rfl
      · exact absurd hu hnn
    obtain ⟨s, t, hs, ht, hts⟩ := foldl_price_cost (shoppingItems env now ingredients st).1
      hfold 0 0 le_rfl
    refine ⟨s - t, ?_, by linarith⟩
    show jsSub ((shoppingItems env now ingredients st).1.foldl
        (fun sum item => jsAdd sum item.packagePrice) (JSNum.num 0))
      ((shoppingItems env now ingredients st).1.foldl
        (fun sum item => jsAdd sum item.costInRecipe) (JSNum.num 0)) = JSNum.num (s - t)
    rw [hs, ht]
    show JSNum.num (s + -t) = JSNum.num (s - t)
    rw [sub_eq_add_neg]

/-- Counterexample to C9 as stated: for the single ingredient
`{name: "zzz", quantity: "..g"}` the quantity's numeric prefix parses to
NaN, the usage percentage is NaN, and the whole summary degrades:
`leftoverValue` is NaN, so `leftoverValue >= 0` is false (as is every
JavaScript comparison with NaN). -/
theorem calculateShoppingCost_leftover_cex :
    nonnegB (calculateShoppingCost envPlain [] 0 [⟨"zzz", "..g"⟩]).1.leftoverValue = false
    ∧ (calculateShoppingCost envPlain [] 0 [⟨"zzz", "..g"⟩]).1.leftoverValue = JSNum.nan :=
  ⟨rfl, rfl⟩

/-- Witness for C9 (amended): one ingredient, salt "1 tsp", resolved from
the static table; the leftover value is a nonnegative rational. -/
theorem calculateShoppingCost_leftover_witness :
    ∃ l : ℚ, (calculateShoppingCost envPlain [] 0 [⟨"salt", "1 tsp"⟩]).1.leftoverValue
      = JSNum.num l ∧ 0 ≤ l := by
  refine (calculateShoppingCost_leftover envPlain [] 0 [⟨"salt", "1 tsp"⟩]).2 ?_
  intro it hit
  have hitems : (calculateShoppingCost envPlain [] 0 [⟨"salt", "1 tsp"⟩]).1.ingredients
      = [⟨"salt", "1 tsp", JSNum.num 0, "750g", JSNum.num (129 / 100),
          jsMin1 (JSNum.num (1 / 2)),
          jsMul (JSNum.num (129 / 100)) (jsMin1 (JSNum.num (1 / 2))),
          "hardcoded database"⟩] := rfl
  rw [hitems] at hit
  simp only [List.mem_singleton] at hit
  subst hit
  constructor
  · exact ⟨129 / 100, rfl, by norm_num⟩
  · show jsMin1 (JSNum.num (1 / 2)) ≠ JSNum.nan
    simp [jsMin1]
